import Mathlib

/-!
Verification of the dm-database-parser core (timestamp anchor matcher,
record boundary scanner, record field extractor, order-sensitive keyword
validator) against its design specification.

Strings are modelled as lists of bytes (`List Nat`), matching the byte-level
operations of the source (`as_bytes`, byte-indexed slicing).  Byte slicing
that Rust guards with a UTF-8 char-boundary check is modelled explicitly
where the check can fail (see `parse_record`).
-/

/-- An ASCII digit byte, as in Rust `u8::is_ascii_digit`. -/
def isAsciiDigit (c : Nat) : Bool := 48 ≤ c && c ≤ 57

/-- Embeds `tools.rs::is_ts_millis_bytes` (and the identical `is_ts_millis`):
exactly 23 bytes, separators `-`, `-`, ` `, `:`, `:`, `.` at indices
4, 7, 10, 13, 16, 19 and ASCII digits everywhere else. -/
def is_ts_millis_bytes (bytes : List Nat) : Bool :=
  bytes.length == 23 &&
  (bytes.getD 4 0 == 45 && bytes.getD 7 0 == 45 && bytes.getD 10 0 == 32 &&
   bytes.getD 13 0 == 58 && bytes.getD 16 0 == 58 && bytes.getD 19 0 == 46) &&
  ([0, 1, 2, 3, 5, 6, 8, 9, 11, 12, 14, 15, 17, 18, 20, 21, 22].all fun i =>
    isAsciiDigit (bytes.getD i 0))

/-- The anchor test of `RecordSplitter` (`parser.rs` lines 45-46 and 96-97):
offset 0 or preceded by a newline byte, and the next 23 bytes match the
timestamp layout.  In the source the 23-byte slice is only taken when
`p + 23 ≤ n`; here `take 23` yields a short list (hence `false`) otherwise. -/
def anchorAt (b : List Nat) (p : Nat) : Bool :=
  (p == 0 || b.getD (p - 1) 0 == 10) && is_ts_millis_bytes ((b.drop p).take 23)

/-- The scan loop `while pos <= limit` with `limit = n - 23` shared by
`RecordSplitter::new` and `RecordSplitter::next`: first anchor at or after
`pos`. -/
def findAnchorFrom (b : List Nat) (pos : Nat) : Option Nat :=
  (List.range' pos (b.length - 23 + 1 - pos)).find? (anchorAt b)

/-- `RecordSplitter::new`: the first anchor of the buffer (scanned only when
the buffer holds at least 23 bytes). -/
def first_start (b : List Nat) : Option Nat :=
  if 23 ≤ b.length then findAnchorFrom b 0 else none

/-- `RecordSplitter::leading_errors_slice`: the text before the first record,
absent when no record exists. -/
def leading_errors_slice (b : List Nat) : Option (List Nat) :=
  (first_start b).map fun s => b.take s

/-- The `Iterator::next` loop of `RecordSplitter`, unrolled: from a current
record start, scan from `start + 1` for the next anchor; yield `[start, q)`
and continue from `q`, or yield the final `[start, n)` span.  The source's
`scan_pos > n` early return is unreachable (the cursor is `start + 1` and
every start satisfies `start + 23 <= n`), so it is not modelled.  The fuel
argument only bounds the recursion; `b.length + 1` is always enough since
each step strictly increases `start`. -/
def spansGo (b : List Nat) : Nat → Nat → List (Nat × Nat)
  | 0, _ => []
  | fuel + 1, start =>
    match findAnchorFrom b (start + 1) with
    | none => [(start, b.length)]
    | some q => (start, q) :: spansGo b fuel q

/-- All spans yielded by iterating a fresh `RecordSplitter` over `b`. -/
def recordSpans (b : List Nat) : List (Nat × Nat) :=
  match first_start b with
  | none => []
  | some s => spansGo b (b.length + 1) s

/-- The byte slice `b[s..e]`. -/
def sliceB (b : List Nat) (s e : Nat) : List Nat := (b.take e).drop s

/-- The record texts yielded by the splitter (each `&text[start..end]`). -/
def recordsOf (b : List Nat) : List (List Nat) :=
  (recordSpans b).map fun p => sliceB b p.1 p.2

/-- One step of Rust `str::lines`: strip a single trailing `\r` from a
line that was terminated by `\n`. -/
def stripCR (l : List Nat) : List Nat := if l.getLast? == some 13 then l.dropLast else l

/-- Split on `\n` bytes, keeping (possibly empty) segments; always returns at
least one segment. -/
def splitNL : List Nat → List (List Nat)
  | [] => [[]]
  | c :: rest =>
    if c == 10 then [] :: splitNL rest
    else
      match splitNL rest with
      | [] => [[c]]
      | s :: ss => (c :: s) :: ss

/-- Assemble Rust `str::lines` output from `\n`-separated segments: every
`\n`-terminated segment loses one trailing `\r`; a trailing segment with no
final `\n` is kept as is; a final empty segment (trailing newline) yields no
line. -/
def linesAssemble : List (List Nat) → List (List Nat)
  | [] => []
  | [seg] => if seg == [] then [] else [seg]
  | seg :: rest => stripCR seg :: linesAssemble rest

/-- Rust `str::lines` over bytes. -/
def linesOf (b : List Nat) : List (List Nat) := linesAssemble (splitNL b)

/-- Embeds `parser.rs::split_by_ts_records_with_errors`: all record slices,
plus the leading-error prefix split into lines (nothing when the prefix is
absent). -/
def split_by_ts_records_with_errors (b : List Nat) : List (List Nat) × List (List Nat) :=
  (recordsOf b,
    match leading_errors_slice b with
    | none => []
    | some p => linesOf p)

/-- Rust `str::starts_with` for byte lists (first argument is the pattern). -/
def startsWithB : List Nat → List Nat → Bool
  | [], _ => true
  | _ :: _, [] => false
  | p :: ps, c :: cs => p == c && startsWithB ps cs

/-- Rust `str::find(char)` over bytes: index of the first occurrence. -/
def findByte : List Nat → Nat → Option Nat
  | [], _ => none
  | c :: rest, t => if c == t then some 0 else (findByte rest t).map (· + 1)

/-- ASCII whitespace bytes of Unicode `White_Space`. -/
def isAsciiWs (c : Nat) : Bool := c == 9 || c == 10 || c == 11 || c == 12 || c == 13 || c == 32

/-- Two-byte UTF-8 encodings of `White_Space` characters (U+0085, U+00A0). -/
def isWs2 (c1 c2 : Nat) : Bool := c1 == 194 && (c2 == 133 || c2 == 160)

/-- Three-byte UTF-8 encodings of `White_Space` characters (U+1680,
U+2000..U+200A, U+2028, U+2029, U+202F, U+205F, U+3000). -/
def isWs3 (c1 c2 c3 : Nat) : Bool :=
  (c1 == 225 && c2 == 154 && c3 == 128) ||
  (c1 == 226 && c2 == 128 && ((128 ≤ c3 && c3 ≤ 138) || c3 == 168 || c3 == 169 || c3 == 175)) ||
  (c1 == 226 && c2 == 129 && c3 == 159) ||
  (c1 == 227 && c2 == 128 && c3 == 128)

/-- Rust `str::trim_start` over UTF-8 bytes: drop leading `White_Space`
characters (in valid UTF-8 the lead bytes 0xC2/0xE1/0xE2/0xE3 never occur as
continuation bytes, so byte-wise matching fires only at character starts). -/
def trimStart : List Nat → List Nat
  | [] => []
  | c1 :: r1 =>
    if isAsciiWs c1 then trimStart r1
    else
      match r1 with
      | c2 :: r2 =>
        if isWs2 c1 c2 then trimStart r2
        else
          match r2 with
          | c3 :: r3 => if isWs3 c1 c2 c3 then trimStart r3 else c1 :: c2 :: c3 :: r3
          | [] => c1 :: [c2]
      | [] => [c1]

/-- Emit the pending token (reversed accumulator), if non-empty. -/
def flushTok (acc : List Nat) : List (List Nat) := if acc == [] then [] else [acc.reverse]

/-- Worker for `splitWs`; `acc` holds the current token's bytes reversed. -/
def splitWsGo (acc : List Nat) : List Nat → List (List Nat)
  | [] => flushTok acc
  | [c1] =>
    if isAsciiWs c1 then flushTok acc
    else flushTok (c1 :: acc)
  | [c1, c2] =>
    if isAsciiWs c1 then flushTok acc ++ splitWsGo [] [c2]
    else if isWs2 c1 c2 then flushTok acc
    else splitWsGo (c1 :: acc) [c2]
  | c1 :: c2 :: c3 :: r3 =>
    if isAsciiWs c1 then flushTok acc ++ splitWsGo [] (c2 :: c3 :: r3)
    else if isWs2 c1 c2 then flushTok acc ++ splitWsGo [] (c3 :: r3)
    else if isWs3 c1 c2 c3 then flushTok acc ++ splitWsGo [] r3
    else splitWsGo (c1 :: acc) (c2 :: c3 :: r3)

/-- Rust `str::split_whitespace` over UTF-8 bytes: maximal runs of
non-whitespace characters. -/
def splitWs (b : List Nat) : List (List Nat) := splitWsGo [] b

/-- Byte list of an ASCII string literal. -/
def asciiBytes (s : String) : List Nat := s.data.map fun c => c.toNat

def epPat : List Nat := asciiBytes "EP["
def sessPat : List Nat := asciiBytes "sess:"
def thrdPat : List Nat := asciiBytes "thrd:"
def userPat : List Nat := asciiBytes "user:"
def trxidPat : List Nat := asciiBytes "trxid:"
def stmtPat : List Nat := asciiBytes "stmt:"
def appnamePat : List Nat := asciiBytes "appname:"
def ipPat : List Nat := asciiBytes "ip:::"
def ffffPat : List Nat := asciiBytes "ffff:"
def eidPat : List Nat := asciiBytes "EXEC_ID:"
def rcPat : List Nat := asciiBytes "ROWCOUNT:"
def etPat : List Nat := asciiBytes "EXECTIME:"

/-- Worker for `stripAll`; the fuel `s.length` bounds the number of strips
(each successful strip removes at least one byte). -/
def stripAllGo (pat : List Nat) : Nat → List Nat → List Nat
  | 0, s => s
  | fuel + 1, s =>
    if pat.length != 0 && startsWithB pat s then stripAllGo pat fuel (s.drop pat.length) else s

/-- Rust `str::trim_start_matches(pat)`: repeatedly remove a leading `pat`. -/
def stripAll (pat s : List Nat) : List Nat := stripAllGo pat s.length s

/-- The `ip:::`/`ffff:` cleanup applied to an embedded IP token in
`parse_record`. -/
def ipClean (v : List Nat) : List Nat := stripAll ffffPat (stripAll ipPat v)

/-- The eight optional metadata fields accumulated by the token loop of
`parse_record`. -/
structure MetaAcc where
  ep : Option (List Nat)
  sess : Option (List Nat)
  thrd : Option (List Nat)
  user : Option (List Nat)
  trxid : Option (List Nat)
  stmt : Option (List Nat)
  appname : Option (List Nat)
  ip : Option (List Nat)
deriving DecidableEq

/-- The empty accumulator (all fields start as `None` in the source). -/
def MetaAcc.empty : MetaAcc := ⟨none, none, none, none, none, none, none, none⟩

/-- The `while let Some(tok) = iter.next()` token loop of `parse_record`
(`parser.rs` lines 254-297), including the peek/consume handling of a
standalone `appname:` token. -/
def metaLoop : List (List Nat) → MetaAcc → MetaAcc
  | [], acc => acc
  | tok :: rest, acc =>
    if startsWithB epPat tok then metaLoop rest { acc with ep := some tok }
    else if startsWithB sessPat tok then metaLoop rest { acc with sess := some (tok.drop 5) }
    else if startsWithB thrdPat tok then metaLoop rest { acc with thrd := some (tok.drop 5) }
    else if startsWithB userPat tok then metaLoop rest { acc with user := some (tok.drop 5) }
    else if startsWithB trxidPat tok then metaLoop rest { acc with trxid := some (tok.drop 6) }
    else if startsWithB stmtPat tok then metaLoop rest { acc with stmt := some (tok.drop 5) }
    else if tok == appnamePat then
      match rest with
      | next :: rest2 =>
        if startsWithB ipPat next then
          metaLoop rest2 { acc with appname := some [], ip := some (ipClean next) }
        else metaLoop rest2 { acc with appname := some next }
      | [] => { acc with appname := some [] }
    else if startsWithB appnamePat tok then
      if startsWithB ipPat (tok.drop 8) then
        metaLoop rest { acc with appname := some [], ip := some (ipClean (tok.drop 8)) }
      else metaLoop rest { acc with appname := some (tok.drop 8) }
    else metaLoop rest acc

def U64MAX : Nat := 2 ^ 64 - 1

/-- Rust `u64::saturating_mul`. -/
def satMul (a b : Nat) : Nat := min (a * b) U64MAX

/-- Rust `u64::saturating_add`. -/
def satAdd (a b : Nat) : Nat := min (a + b) U64MAX

/-- The skip loop of `parse_digits_forward`: advance `i` past non-digit
bytes (the list argument is the tail of the buffer at index `i`). -/
def skipNonDigits : List Nat → Nat → Nat
  | [], i => i
  | c :: rest, i => if isAsciiDigit c then i else skipNonDigits rest (i + 1)

/-- The digit-accumulation loop of `parse_digits_forward` with saturating
arithmetic; returns the value and the index one past the digit run. -/
def digitsLoop : List Nat → Nat → Nat → Nat × Nat
  | [], i, val => (val, i)
  | c :: rest, i, val =>
    if isAsciiDigit c then digitsLoop rest (i + 1) (satAdd (satMul val 10) (c - 48))
    else (val, i)

/-- Embeds `parser.rs::parse_digits_forward`. -/
def parse_digits_forward (s : List Nat) (i : Nat) : Option (Nat × Nat) :=
  let j := skipNonDigits (s.drop i) i
  if s.length ≤ j then none
  else some (digitsLoop (s.drop j) j 0)

/-- Rust `str::rfind(pat)` over bytes: index of the last occurrence. -/
def rfindGo (pat : List Nat) : List Nat → Option Nat
  | [] => none
  | c :: rest =>
    match rfindGo pat rest with
    | some i => some (i + 1)
    | none => if startsWithB pat (c :: rest) then some 0 else none

/-- One `if let Some(pos) = body[..search_end].rfind(label)` block of the
metric extraction in `parse_record`: returns the extracted value and the new
`search_end`. -/
def rstep (body pat : List Nat) (se : Nat) : Option Nat × Nat :=
  match rfindGo pat (body.take se) with
  | some p => ((parse_digits_forward body (p + pat.length)).map Prod.fst, p)
  | none => (none, se)

/-- The tail-anchored metric extraction of `parse_record` (lines 299-328):
`EXEC_ID:`, then `ROWCOUNT:`, then `EXECTIME:`, each search confined to the
part of the body before the previous match.  Result order:
(execute_time_ms, row_count, execute_id). -/
def metricsOf (body : List Nat) : Option Nat × Option Nat × Option Nat :=
  let r1 := rstep body eidPat body.length
  let r2 := rstep body rcPat r1.2
  let r3 := rstep body etPat r2.2
  (r3.1, r2.1, r1.1)

/-- The structured record produced by `parse_record`. -/
structure ParsedRecord where
  ts : List Nat
  meta_raw : List Nat
  ep : Option (List Nat)
  sess : Option (List Nat)
  thrd : Option (List Nat)
  user : Option (List Nat)
  trxid : Option (List Nat)
  stmt : Option (List Nat)
  appname : Option (List Nat)
  ip : Option (List Nat)
  body : List Nat
  execute_time_ms : Option Nat
  row_count : Option Nat
  execute_id : Option Nat
deriving DecidableEq

/-- A UTF-8 continuation byte; Rust `str::is_char_boundary` fails exactly on
these. -/
def isContByte (c : Nat) : Bool := 128 ≤ c && c < 192

/-- The body of `parser.rs::parse_record` after the char-boundary check:
timestamp = first 23 bytes, metadata between the first `(` after the
timestamp and the first `)` after that, body = trimmed text after `)` (or
the whole remainder when parentheses are missing or unclosed), metadata
token fields, and tail-anchored numeric metrics. -/
def parse_record_core (rec : List Nat) : ParsedRecord :=
  let ts := if 23 ≤ rec.length then rec.take 23 else []
  let after_ts := if 23 < rec.length then rec.drop 23 else []
  let mb : List Nat × List Nat :=
    match findByte after_ts 40 with
    | some oi =>
      match findByte (after_ts.drop oi) 41 with
      | some cr =>
        let m := (after_ts.drop (oi + 1)).take (cr - 1)
        let bs := 23 + oi + cr + 1
        (m, if bs < rec.length then trimStart (rec.drop bs) else [])
      | none => ([], after_ts)
    | none => ([], after_ts)
  let acc := metaLoop (splitWs mb.1) MetaAcc.empty
  let mets := metricsOf mb.2
  { ts := ts, meta_raw := mb.1, ep := acc.ep, sess := acc.sess, thrd := acc.thrd,
    user := acc.user, trxid := acc.trxid, stmt := acc.stmt, appname := acc.appname,
    ip := acc.ip, body := mb.2, execute_time_ms := mets.1, row_count := mets.2.1,
    execute_id := mets.2.2 }

/-- Embeds `parser.rs::parse_record` on the bytes of a `&str`.  The slices
`&rec[..23]` / `&rec[23..]` taken when `rec.len() >= 23` panic in Rust when
byte offset 23 is not a char boundary, i.e. when the buffer is longer than
23 bytes and byte 23 is a UTF-8 continuation byte; that panic is modelled as
`none`.  Every other slice in the function is taken at an occurrence of an
ASCII byte, which in valid UTF-8 is always a char boundary. -/
def parse_record (rec : List Nat) : Option ParsedRecord :=
  if 23 < rec.length && isContByte (rec.getD 23 0) then none
  else some (parse_record_core rec)

/-- First-occurrence search for one pattern, as recorded from the
Aho-Corasick scan in `tools.rs::is_record_start` (the seven markers cannot
overlap each other, so the non-overlapping scan reports every occurrence,
and the retained value is the least start offset). -/
def firstOccurGo (pat : List Nat) : List Nat → Option Nat
  | [] => none
  | c :: rest =>
    if startsWithB pat (c :: rest) then some 0
    else (firstOccurGo pat rest).map (· + 1)

/-- Least start offset of `pat` inside `hay`. -/
def firstOccur (pat hay : List Nat) : Option Nat := firstOccurGo pat hay

/-- The final loop of `is_record_start`: positions must be strictly
increasing (`cur <= prev` rejects). -/
def incLoop : Option Nat → List Nat → Bool
  | _, [] => true
  | none, c :: r => incLoop (some c) r
  | some prev, c :: r => if c ≤ prev then false else incLoop (some c) r

/-- The seven markers of `tools.rs::PATTERNS`, in required order. -/
def PATTERNS : List (List Nat) := [epPat, sessPat, thrdPat, userPat, trxidPat, stmtPat, appnamePat]

/-- Embeds `tools.rs::is_record_start`: timestamp layout at offset 0, a
parenthesized metadata block, all seven markers present inside it, and their
first-occurrence offsets strictly increasing.  The source slices
`&line[0..23]`, which panics when byte 23 splits a UTF-8 character; such a
line has a non-ASCII byte among its first 23 and this byte-level model
rejects it, which agrees with the claim's acceptance condition (acceptance
requires 23 ASCII layout bytes, under which no panic is possible). -/
def is_record_start (line : List Nat) : Bool :=
  if line.length < 23 then false
  else if !is_ts_millis_bytes (line.take 23) then false
  else
    let rest := line.drop 23
    match findByte rest 40 with
    | none => false
    | some op =>
      match findByte (rest.drop op) 41 with
      | none => false
      | some p =>
        let close := op + p
        let meta := (rest.drop (op + 1)).take (close - (op + 1))
        let occs := PATTERNS.map fun pat => firstOccur pat meta
        if occs.any fun o => o.isNone then false
        else incLoop none (occs.map fun o => o.getD 0)

/-! ### Specification-side definitions and concrete inputs used by the claims -/

/-- The leading-error text of a buffer as the claim describes it: the text
before the first anchor.  When no anchor exists the entire buffer is
leading-error text (spec section 4.2: "If none exists, the entire buffer is
leading-error text and no records are produced"); when an anchor exists this
equals the value inside `leading_errors_slice`. -/
def leadingErrorText (b : List Nat) : List Nat :=
  b.take ((first_start b).getD b.length)

/-- A 24-byte buffer with no anchor anywhere. -/
def c2buf : List Nat := asciiBytes "!!! not a log line !!!!!"

/-- A buffer with a leading-error line and two records (the shape of the
`test_record_splitter_iterator` test). -/
def wBuf : List Nat :=
  asciiBytes "garbage\n2023-10-05 14:23:45.123 (EP[1]) foo\n2023-10-05 14:23:46.456 (EP[2]) bar\n"

/-- The first record slice of `wBuf`. -/
def wRec : List Nat := asciiBytes "2023-10-05 14:23:45.123 (EP[1]) foo\n"

/-- A 24-byte valid UTF-8 string: 22 `a` bytes followed by U+00E9
(`0xC3 0xA9`); its byte 23 is a continuation byte, so `&rec[..23]` panics. -/
def c3bad : List Nat := List.replicate 22 97 ++ [195, 169]

/-- The record of claim C6's correction: a timestamp followed by `X(abc` —
a `(` exists after the timestamp but no `)` follows it. -/
def c6rec : List Nat := asciiBytes "2023-10-05 14:23:45.123X(abc"

/-- The record of claim C7: the metadata block from the spec's example, with
a standalone `appname:` marker followed by an `ip:::ffff:`-prefixed token. -/
def c7rec : List Nat :=
  asciiBytes "2025-08-12 10:57:09.562 (EP[0] sess:X thrd:1 user:U trxid:0 stmt:NULL appname: ip:::ffff:10.3.100.68)"

/-- The exact decimal value of a run of ASCII digit bytes. -/
def decimalVal (ds : List Nat) : Nat := ds.foldl (fun a c => a * 10 + (c - 48)) 0

/-- The per-label numeric extraction as the spec words it: skip the
non-digit bytes after the label position, then take the maximal ASCII digit
run; absent when no digit is found, otherwise the run's exact value clamped
at the largest representable u64. -/
def digits_spec (s : List Nat) (i : Nat) : Option (Nat × Nat) :=
  let j := i + ((s.drop i).takeWhile fun c => !isAsciiDigit c).length
  let run := (s.drop j).takeWhile isAsciiDigit
  if run = [] then none else some (min (decimalVal run) U64MAX, j + run.length)

/-- All start offsets at which `pat` occurs inside `hay`. -/
def occIdxList (pat hay : List Nat) : List Nat :=
  (List.range hay.length).filter fun i => startsWithB pat (hay.drop i)

/-- The nearest-to-the-end (greatest) occurrence offset of `pat` in `hay`,
as the spec words the backward search. -/
def lastOcc (pat hay : List Nat) : Option Nat := (occIdxList pat hay).max?

/-- One backward-search step as the spec words it: find the greatest
occurrence of the label in the not-yet-consumed part of the body, parse the
digits after it, and shrink the search window to just before the match. -/
def sstep (body pat : List Nat) (se : Nat) : Option Nat × Nat :=
  match lastOcc pat (body.take se) with
  | some p => ((digits_spec body (p + pat.length)).map Prod.fst, p)
  | none => (none, se)

/-- The whole metric extraction as the spec words it: EXEC_ID first over the
whole body, then ROWCOUNT over the part before that match, then EXECTIME
over the part before that; result order (executeTimeMs, rowCount,
executeId). -/
def metrics_spec (body : List Nat) : Option Nat × Option Nat × Option Nat :=
  let r1 := sstep body eidPat body.length
  let r2 := sstep body rcPat r1.2
  let r3 := sstep body etPat r2.2
  (r3.1, r2.1, r1.1)

/-- The example body of claim C4. -/
def c4body : List Nat := asciiBytes "EXECTIME: 0ms ROWCOUNT: 1 EXEC_ID: 289655185"

/-- The separator byte required at a given index of the 23-byte layout, as
the claim words it: `-` at 4 and 7, space at 10, `:` at 13 and 16, `.` at
19; all other indices hold ASCII digits. -/
def sepByte (i : Nat) : Option Nat :=
  if i = 4 ∨ i = 7 then some 45
  else if i = 10 then some 32
  else if i = 13 ∨ i = 16 then some 58
  else if i = 19 then some 46
  else none

/-- The timestamp layout as the claim words it: exactly 23 bytes, the fixed
separators at their indices, an ASCII digit at every other index. -/
def ts_layout_spec (l : List Nat) : Prop :=
  l.length = 23 ∧ ∀ i, i < 23 →
    match sepByte i with
    | some c => l.getD i 0 = c
    | none => isAsciiDigit (l.getD i 0) = true

/-- A layout-valid timestamp whose month field is 13. -/
def month13 : List Nat := asciiBytes "2023-13-05 14:23:45.123"

/-- `pat` occurs inside `hay` starting at byte offset `i`. -/
def OccursAt (pat hay : List Nat) (i : Nat) : Prop :=
  i + pat.length ≤ hay.length ∧ pat = (hay.drop i).take pat.length

/-- `i` is the least position satisfying `P` (the first occurrence). -/
def IsFirstSuch (P : Nat → Prop) (i : Nat) : Prop := P i ∧ ∀ j, j < i → ¬ P j

/-- The metadata block the validator examines: the text between the first
`(` after the timestamp (at relative offset `op`) and the first `)` after it
(at relative offset `op + cr`). -/
def metaOf (line : List Nat) (op cr : Nat) : List Nat :=
  ((line.drop 23).drop (op + 1)).take (op + cr - (op + 1))

/-- The record-start acceptance condition as the claim words it: at least 23
bytes with the timestamp layout exactly at offset 0, a parenthesized block
after the timestamp, all seven markers occurring inside that block, and the
seven first-occurrence offsets strictly increasing in the listed order. -/
def record_start_spec (line : List Nat) : Prop :=
  23 ≤ line.length ∧ ts_layout_spec (line.take 23) ∧
  ∃ op cr p1 p2 p3 p4 p5 p6 p7,
    IsFirstSuch (OccursAt [40] (line.drop 23)) op ∧
    IsFirstSuch (OccursAt [41] ((line.drop 23).drop op)) cr ∧
    IsFirstSuch (OccursAt epPat (metaOf line op cr)) p1 ∧
    IsFirstSuch (OccursAt sessPat (metaOf line op cr)) p2 ∧
    IsFirstSuch (OccursAt thrdPat (metaOf line op cr)) p3 ∧
    IsFirstSuch (OccursAt userPat (metaOf line op cr)) p4 ∧
    IsFirstSuch (OccursAt trxidPat (metaOf line op cr)) p5 ∧
    IsFirstSuch (OccursAt stmtPat (metaOf line op cr)) p6 ∧
    IsFirstSuch (OccursAt appnamePat (metaOf line op cr)) p7 ∧
    p1 < p2 ∧ p2 < p3 ∧ p3 < p4 ∧ p4 < p5 ∧ p5 < p6 ∧ p6 < p7

set_option maxRecDepth 40000
set_option maxHeartbeats 4000000

/-! ### Scanner lemmas -/

lemma anchorAt_bound {b : List Nat} {q : Nat} (h : anchorAt b q = true) :
    q + 23 ≤ b.length := by
  unfold anchorAt at h
  rw [Bool.and_eq_true] at h
  have h2 := h.2
  unfold is_ts_millis_bytes at h2
  rw [Bool.and_eq_true, Bool.and_eq_true] at h2
  have hl : ((b.drop q).take 23).length = 23 := by
    have := h2.1.1
    simpa using this
  simp only [List.length_take, List.length_drop] at hl
  omega

lemma findAnchorFrom_some {b : List Nat} {pos q : Nat}
    (h : findAnchorFrom b pos = some q) :
    pos ≤ q ∧ q + 23 ≤ b.length ∧ anchorAt b q = true := by
  have hq := List.find?_some h
  have hm := List.mem_of_find?_eq_some h
  rw [List.mem_range'_1] at hm
  exact ⟨hm.1, anchorAt_bound hq, hq⟩

lemma findAnchorFrom_none {b : List Nat} {pos : Nat}
    (h : findAnchorFrom b pos = none) :
    ∀ q, pos ≤ q → anchorAt b q = false := by
  intro q hpq
  by_contra hanc
  rw [Bool.not_eq_false] at hanc
  have hb := anchorAt_bound hanc
  rw [findAnchorFrom, List.find?_eq_none] at h
  exact h q (List.mem_range'_1.mpr ⟨hpq, by omega⟩) hanc

lemma sliceB_append {b : List Nat} {s m e : Nat} (h1 : s ≤ m) (h2 : m ≤ e)
    (h3 : e ≤ b.length) :
    sliceB b s m ++ sliceB b m e = sliceB b s e := by
  unfold sliceB
  have h4 : (b.take e).take m = b.take m := by
    rw [List.take_take]
    congr 1
    omega
  conv_rhs => rw [← List.take_append_drop m (b.take e)]
  rw [List.drop_append_eq_append_drop, h4, List.length_take]
  have h5 : s - min m b.length = 0 := by omega
  rw [h5, List.drop_zero]

lemma sliceB_to_length {b : List Nat} {s : Nat} : sliceB b s b.length = b.drop s := by
  unfold sliceB
  rw [List.take_length]

lemma spansGo_flatten (b : List Nat) :
    ∀ fuel start, b.length - start < fuel → start ≤ b.length →
      ((spansGo b fuel start).map fun p => sliceB b p.1 p.2).flatten = b.drop start := by
  intro fuel
  induction fuel with
  | zero => intro start h1 _; omega
  | succ fuel ih =>
    intro start h1 h2
    unfold spansGo
    cases hfa : findAnchorFrom b (start + 1) with
    | none =>
      simp only [List.map_cons, List.map_nil, List.flatten_cons, List.flatten_nil,
        List.append_nil]
      exact sliceB_to_length
    | some q =>
      obtain ⟨hq1, hq2, _⟩ := findAnchorFrom_some hfa
      have hrec := ih q (by omega) (by omega)
      simp only [List.map_cons, List.flatten_cons, hrec]
      rw [← sliceB_to_length, sliceB_append (by omega) (by omega) (by omega),
        sliceB_to_length]

lemma leadingErrorText_of_first_start {b : List Nat} {s : Nat}
    (h : first_start b = some s) : leading_errors_slice b = some (leadingErrorText b) := by
  simp [leading_errors_slice, leadingErrorText, h]

lemma ts_digit_or_sep {l : List Nat} (h : is_ts_millis_bytes l = true) :
    ∀ k, k < 23 → l.getD k 0 ≠ 10 := by
  simp only [is_ts_millis_bytes, Bool.and_eq_true, beq_iff_eq, List.all_eq_true,
    List.mem_cons, List.not_mem_nil, or_false] at h
  obtain ⟨⟨hlen, hseps⟩, hall⟩ := h
  obtain ⟨⟨⟨⟨⟨h4, h7⟩, h10⟩, h13⟩, h16⟩, h19⟩ := hseps
  have hd : ∀ k, isAsciiDigit (l.getD k 0) = true → l.getD k 0 ≠ 10 := by
    intro k hk
    simp only [isAsciiDigit, Bool.and_eq_true, decide_eq_true_eq] at hk
    omega
  intro k hk
  interval_cases k
  · exact hd 0 (hall 0 (by norm_num))
  · exact hd 1 (hall 1 (by norm_num))
  · exact hd 2 (hall 2 (by norm_num))
  · exact hd 3 (hall 3 (by norm_num))
  · omega
  · exact hd 5 (hall 5 (by norm_num))
  · exact hd 6 (hall 6 (by norm_num))
  · omega
  · exact hd 8 (hall 8 (by norm_num))
  · exact hd 9 (hall 9 (by norm_num))
  · omega
  · exact hd 11 (hall 11 (by norm_num))
  · exact hd 12 (hall 12 (by norm_num))
  · omega
  · exact hd 14 (hall 14 (by norm_num))
  · exact hd 15 (hall 15 (by norm_num))
  · omega
  · exact hd 17 (hall 17 (by norm_num))
  · exact hd 18 (hall 18 (by norm_num))
  · omega
  · exact hd 20 (hall 20 (by norm_num))
  · exact hd 21 (hall 21 (by norm_num))
  · exact hd 22 (hall 22 (by norm_num))

lemma getD_window {b : List Nat} {s k : Nat} (hk : k < 23) :
    ((b.drop s).take 23).getD k 0 = b.getD (s + k) 0 := by
  rw [List.getD_eq_getElem?_getD, List.getD_eq_getElem?_getD, List.getElem?_take,
    List.getElem?_drop]
  simp [hk]

lemma anchor_gap {b : List Nat} {s q : Nat} (hs : anchorAt b s = true)
    (hq : anchorAt b q = true) (hlt : s < q) : s + 24 ≤ q := by
  have hts : is_ts_millis_bytes ((b.drop s).take 23) = true := by
    unfold anchorAt at hs
    rw [Bool.and_eq_true] at hs
    exact hs.2
  have hnl : ∀ k, k < 23 → b.getD (s + k) 0 ≠ 10 := by
    intro k hk
    have hne := ts_digit_or_sep hts k hk
    rwa [getD_window hk] at hne
  by_contra hcon
  push_neg at hcon
  have hq1 : (q == 0 || b.getD (q - 1) 0 == 10) = true := by
    unfold anchorAt at hq
    rw [Bool.and_eq_true] at hq
    exact hq.1
  rw [Bool.or_eq_true, beq_iff_eq, beq_iff_eq] at hq1
  rcases hq1 with h0 | h10
  · omega
  · exact hnl (q - 1 - s) (by omega)
      (by rw [show s + (q - 1 - s) = q - 1 by omega]; exact h10)

lemma spansGo_head {b : List Nat} {fuel start : Nat} (h : 0 < fuel) :
    ∃ e tail, spansGo b fuel start = (start, e) :: tail := by
  cases fuel with
  | zero => omega
  | succ fuel =>
    unfold spansGo
    cases findAnchorFrom b (start + 1) with
    | none => exact ⟨b.length, [], rfl⟩
    | some q => exact ⟨q, _, rfl⟩

lemma spansGo_inv (b : List Nat) :
    ∀ fuel start, b.length - start < fuel → anchorAt b start = true →
      (∀ sp ∈ spansGo b fuel start,
        anchorAt b sp.1 = true ∧ sp.1 + 23 ≤ sp.2 ∧ sp.2 ≤ b.length) ∧
      List.Chain' (fun p q : Nat × Nat => p.1 < q.1 ∧ p.2 = q.1) (spansGo b fuel start) := by
  intro fuel
  induction fuel with
  | zero =>
    intro start h1 h2
    have := anchorAt_bound h2
    omega
  | succ fuel ih =>
    intro start h1 h2
    have hsb := anchorAt_bound h2
    unfold spansGo
    cases hfa : findAnchorFrom b (start + 1) with
    | none =>
      refine ⟨?_, ?_⟩
      · intro sp hsp
        simp only [List.mem_singleton] at hsp
        subst hsp
        exact ⟨h2, by omega, le_refl _⟩
      · simp
    | some q =>
      obtain ⟨hq1, hq2, hq3⟩ := findAnchorFrom_some hfa
      have hgap : start + 24 ≤ q := anchor_gap h2 hq3 (by omega)
      obtain ⟨ihm, ihc⟩ := ih q (by omega) hq3
      refine ⟨?_, ?_⟩
      · intro sp hsp
        rcases List.mem_cons.mp hsp with heq | hmem
        · subst heq
          exact ⟨h2, by omega, by omega⟩
        · exact ihm sp hmem
      · rw [List.chain'_cons']
        refine ⟨?_, ihc⟩
        intro y hy
        obtain ⟨e, tail, hst⟩ := spansGo_head (show 0 < fuel by omega)
        rw [hst] at hy
        simp only [List.head?_cons, Option.mem_def, Option.some.injEq] at hy
        subst hy
        exact ⟨by omega, rfl⟩

lemma first_start_some {b : List Nat} {s : Nat} (h : first_start b = some s) :
    findAnchorFrom b 0 = some s := by
  unfold first_start at h
  split at h
  · exact h
  · exact absurd h (by simp)

/-! ### Claims C1, C2, C10 -/

/-- Claim C1: for every input buffer, concatenating the leading-error span
(the text before the first anchor; per spec section 4.2 the whole buffer
when no anchor exists) with all record spans yielded by the boundary
scanner, in yield order, reproduces the buffer exactly — coverage and
non-overlap. -/
theorem c1_spans_cover_buffer :
    ∀ b : List Nat, leadingErrorText b ++ (recordsOf b).flatten = b := by
  intro b
  unfold leadingErrorText recordsOf recordSpans
  cases hfs : first_start b with
  | none => simp
  | some s =>
    obtain ⟨-, hsb, -⟩ := findAnchorFrom_some (first_start_some hfs)
    simp only [Option.getD_some, List.map_nil]
    rw [spansGo_flatten b (b.length + 1) s (by omega) (by omega)]
    exact List.take_append_drop s b

/-- Claim C2 (amended): a buffer with no offset satisfying the anchor
predicate yields zero record spans and zero leading-error outputs — the
leading-error slice is reported absent and the buffer content appears in
neither output — and no failure is signalled. -/
theorem c2_no_anchor_amended (b : List Nat)
    (h : ∀ p, p < b.length → anchorAt b p = false) :
    split_by_ts_records_with_errors b = ([], []) := by
  have hfs : first_start b = none := by
    unfold first_start
    by_cases h23 : 23 ≤ b.length
    · rw [if_pos h23, findAnchorFrom, List.find?_eq_none]
      intro x hx
      rw [List.mem_range'_1] at hx
      simp [h x (by omega)]
    · rw [if_neg h23]
  simp [split_by_ts_records_with_errors, recordsOf, recordSpans,
    leading_errors_slice, hfs]

/-- Claim C2 counterexample: on a buffer with no valid anchor the source
returns zero records AND an empty error list — `leading_errors_slice` is
`None` and `split_by_ts_records_with_errors` pushes nothing — so there is no
leading-error output equal to the whole buffer, contrary to the claim. -/
theorem c2_counterexample :
    split_by_ts_records_with_errors c2buf = ([], []) ∧
      (split_by_ts_records_with_errors c2buf).2 ≠ [c2buf] := by
  constructor
  · decide
  · decide

/-- Witness for `c2_no_anchor_amended` at the concrete buffer `c2buf`. -/
theorem c2_no_anchor_amended_witness :
    (∀ p, p < c2buf.length → anchorAt c2buf p = false) ∧
      split_by_ts_records_with_errors c2buf = ([], []) :=
  ⟨by decide, c2_no_anchor_amended c2buf (by decide)⟩

/-- Claim C10: every span yielded by the splitter is at least 23 bytes long
and begins with a timestamp-layout match; every span start is offset 0 or
immediately preceded by a newline byte; successive spans have strictly
increasing starts and each span ends exactly where the next begins. -/
theorem c10_span_invariants (b : List Nat) :
    (∀ r ∈ recordsOf b, 23 ≤ r.length ∧ is_ts_millis_bytes (r.take 23) = true) ∧
    (∀ sp ∈ recordSpans b, sp.1 = 0 ∨ b.getD (sp.1 - 1) 0 = 10) ∧
    List.Chain' (fun p q : Nat × Nat => p.1 < q.1 ∧ p.2 = q.1) (recordSpans b) := by
  have hmain : (∀ sp ∈ recordSpans b,
      anchorAt b sp.1 = true ∧ sp.1 + 23 ≤ sp.2 ∧ sp.2 ≤ b.length) ∧
      List.Chain' (fun p q : Nat × Nat => p.1 < q.1 ∧ p.2 = q.1) (recordSpans b) := by
    unfold recordSpans
    cases hfs : first_start b with
    | none => exact ⟨fun sp hsp => absurd hsp (by simp), by simp⟩
    | some s =>
      obtain ⟨-, hsb, hanc⟩ := findAnchorFrom_some (first_start_some hfs)
      exact spansGo_inv b (b.length + 1) s (by omega) hanc
  refine ⟨?_, ?_, hmain.2⟩
  · intro r hr
    obtain ⟨sp, hsp, hrr⟩ := List.mem_map.mp hr
    obtain ⟨hanc, hlen, hle⟩ := hmain.1 sp hsp
    have hts : is_ts_millis_bytes ((b.drop sp.1).take 23) = true := by
      unfold anchorAt at hanc
      rw [Bool.and_eq_true] at hanc
      exact hanc.2
    subst hrr
    constructor
    · unfold sliceB
      rw [List.length_drop, List.length_take]
      omega
    · unfold sliceB
      rw [List.drop_take, List.take_take]
      rw [show min 23 (sp.2 - sp.1) = 23 by omega]
      exact hts
  · intro sp hsp
    obtain ⟨hanc, -, -⟩ := hmain.1 sp hsp
    unfold anchorAt at hanc
    rw [Bool.and_eq_true, Bool.or_eq_true, beq_iff_eq, beq_iff_eq] at hanc
    exact hanc.1

/-- Witness for `c10_span_invariants`: the first record of `wBuf` is a
member of `recordsOf wBuf` and satisfies the span invariants. -/
theorem c10_span_invariants_witness :
    23 ≤ wRec.length ∧ is_ts_millis_bytes (wRec.take 23) = true :=
  (c10_span_invariants wBuf).1 wRec (by decide)

/-! ### Claims C3, C6, C7 -/

lemma parse_record_total {rec : List Nat}
    (h : rec.length ≤ 23 ∨ isContByte (rec.getD 23 0) = false) :
    parse_record rec = some (parse_record_core rec) := by
  unfold parse_record
  split
  · next hc =>
    exfalso
    rw [Bool.and_eq_true, decide_eq_true_eq] at hc
    rcases h with h | h
    · omega
    · rw [h] at hc
      exact absurd hc.2 (by simp)
  · rfl

/-- Claim C3 counterexample: `parse_record` is not total on arbitrary
strings — on a 24-byte string whose byte offset 23 falls inside a multi-byte
UTF-8 character, the slice `&rec[..23]` panics (modelled as `none`) instead
of returning a ParsedRecord. -/
theorem c3_counterexample : parse_record c3bad = none ∧ c3bad.length = 24 := by
  constructor
  · decide
  · decide

/-- Claim C3 (amended): for every input string that is at most 23 bytes long
or whose byte at offset 23 is not a UTF-8 continuation byte (in particular
every span yielded by the splitter, whose first 23 bytes are ASCII),
`parse_record` returns a ParsedRecord and never fails; missing tokens merely
leave fields absent. -/
theorem c3_total_amended (rec : List Nat)
    (h : rec.length ≤ 23 ∨ isContByte (rec.getD 23 0) = false) :
    ∃ r, parse_record rec = some r :=
  ⟨parse_record_core rec, parse_record_total h⟩

/-- Witness for `c3_total_amended` at a concrete short input. -/
theorem c3_total_amended_witness :
    ((asciiBytes "hi").length ≤ 23 ∨ isContByte ((asciiBytes "hi").getD 23 0) = false) ∧
      ∃ r, parse_record (asciiBytes "hi") = some r :=
  ⟨Or.inl (by decide), c3_total_amended (asciiBytes "hi") (Or.inl (by decide))⟩

/-- Claim C6 counterexample: with no closing `)`, the extractor's body is
NOT the remainder after the `(` character (`abc`); the source sets
`body = after_ts`, the whole remainder after the timestamp (`X(abc`),
including the `(` itself and the text before it. -/
theorem c6_counterexample :
    (parse_record c6rec).map (fun r => r.body) ≠ some (asciiBytes "abc") ∧
      (parse_record c6rec).map (fun r => (r.meta_raw, r.body)) =
        some ([], asciiBytes "X(abc") := by
  constructor
  · decide
  · decide

/-- Claim C6 (amended): for every record span whose remainder after the
23-byte timestamp contains a `(` with no `)` at or after it, the extractor
leaves the metadata empty and takes as body the whole remainder after the
timestamp (including the `(` character and any text preceding it). -/
theorem c6_unclosed_paren_amended (rec : List Nat) (oi : Nat)
    (h0 : rec.length ≤ 23 ∨ isContByte (rec.getD 23 0) = false)
    (h1 : findByte (rec.drop 23) 40 = some oi)
    (h2 : findByte ((rec.drop 23).drop oi) 41 = none) :
    parse_record rec = some (parse_record_core rec) ∧
      (parse_record_core rec).meta_raw = [] ∧
      (parse_record_core rec).body = rec.drop 23 := by
  have hat : (if 23 < rec.length then rec.drop 23 else []) = rec.drop 23 := by
    by_cases hl : 23 < rec.length
    · rw [if_pos hl]
    · rw [if_neg hl, List.drop_eq_nil_of_le (by omega)]
  refine ⟨parse_record_total h0, ?_, ?_⟩
  · simp only [parse_record_core, hat, h1, h2]
  · simp only [parse_record_core, hat, h1, h2]

/-- Witness for `c6_unclosed_paren_amended` at the concrete record
`c6rec`. -/
theorem c6_unclosed_paren_amended_witness :
    parse_record c6rec = some (parse_record_core c6rec) ∧
      (parse_record_core c6rec).meta_raw = [] ∧
      (parse_record_core c6rec).body = c6rec.drop 23 :=
  c6_unclosed_paren_amended c6rec 1 (by decide) (by decide) (by decide)

/-- Claim C7: for the spec's example metadata, extraction strips the
`ip:::` and `ffff:` prefixes to yield clientIp `10.3.100.68`, and appName is
present with the empty value (`some []`), which is distinct from absent
(`none`). -/
theorem c7_appname_ip_example :
    (parse_record c7rec).map (fun r => (r.ip, r.appname)) =
      some (some (asciiBytes "10.3.100.68"), some []) ∧
      some ([] : List Nat) ≠ (none : Option (List Nat)) := by
  constructor
  · decide
  · decide

/-! ### Claim C8: digit parsing -/

lemma skipNonDigits_spec :
    ∀ (l : List Nat) (i : Nat),
      skipNonDigits l i = i + (l.takeWhile fun c => !isAsciiDigit c).length := by
  intro l
  induction l with
  | nil => intro i; simp [skipNonDigits]
  | cons c r ih =>
    intro i
    by_cases h : isAsciiDigit c
    · simp [skipNonDigits, List.takeWhile_cons, h]
    · simp only [skipNonDigits, List.takeWhile_cons, h, Bool.not_false, if_neg,
        Bool.false_eq_true, not_false_iff, if_true, ih, List.length_cons]
      omega

lemma sat_step (x d : Nat) : satAdd (satMul (min x U64MAX) 10) d = min (x * 10 + d) U64MAX := by
  unfold satAdd satMul U64MAX
  norm_num
  omega

lemma digitsLoop_spec :
    ∀ (l : List Nat) (i x : Nat),
      digitsLoop l i (min x U64MAX) =
        (min ((l.takeWhile isAsciiDigit).foldl (fun a c => a * 10 + (c - 48)) x) U64MAX,
          i + (l.takeWhile isAsciiDigit).length) := by
  intro l
  induction l with
  | nil => intro i x; simp [digitsLoop]
  | cons c r ih =>
    intro i x
    by_cases h : isAsciiDigit c
    · simp only [digitsLoop, h, if_true, List.takeWhile_cons, sat_step,
        ih (i + 1) (x * 10 + (c - 48)), List.foldl_cons, List.length_cons]
      have harith : i + 1 + (r.takeWhile isAsciiDigit).length =
          i + ((r.takeWhile isAsciiDigit).length + 1) := by omega
      rw [harith]
    · simp [digitsLoop, h, List.takeWhile_cons]

lemma dropWhile_eq_drop_len (p : Nat → Bool) :
    ∀ l : List Nat, l.dropWhile p = l.drop (l.takeWhile p).length := by
  intro l
  induction l with
  | nil => rfl
  | cons c r ih =>
    by_cases h : p c
    · simp [List.dropWhile_cons, List.takeWhile_cons, h, ih]
    · simp [List.dropWhile_cons, List.takeWhile_cons, h]

lemma dropWhile_head_not (p : Nat → Bool) :
    ∀ (l : List Nat) (c : Nat) (t : List Nat), l.dropWhile p = c :: t → p c = false := by
  intro l
  induction l with
  | nil => intro c t h; cases h
  | cons a r ih =>
    intro c t h
    rw [List.dropWhile_cons] at h
    by_cases ha : p a
    · rw [if_pos ha] at h
      exact ih c t h
    · rw [if_neg ha] at h
      cases h
      simpa using ha

lemma parse_digits_eq (s : List Nat) (i : Nat) :
    parse_digits_forward s i = digits_spec s i := by
  unfold parse_digits_forward digits_spec
  dsimp only
  rw [skipNonDigits_spec]
  have hdj : s.drop (i + ((s.drop i).takeWhile fun c => !isAsciiDigit c).length) =
      (s.drop i).dropWhile fun c => !isAsciiDigit c := by
    rw [dropWhile_eq_drop_len, List.drop_drop]
  rw [hdj]
  cases hcase : (s.drop i).dropWhile fun c => !isAsciiDigit c with
  | nil =>
    have hlen : s.length ≤ i + ((s.drop i).takeWhile fun c => !isAsciiDigit c).length := by
      rw [← List.drop_eq_nil_iff, hdj, hcase]
    simp [hlen, hcase]
  | cons c t =>
    have hc : isAsciiDigit c = true := by
      have hh := dropWhile_head_not _ _ c t hcase
      simpa using hh
    have hlt : ¬ s.length ≤ i + ((s.drop i).takeWhile fun c => !isAsciiDigit c).length := by
      intro hle
      rw [← List.drop_eq_nil_iff, hdj, hcase] at hle
      cases hle
    rw [if_neg hlt]
    have hrun : (c :: t).takeWhile isAsciiDigit = c :: t.takeWhile isAsciiDigit := by
      rw [List.takeWhile_cons, if_pos hc]
    have hloop := digitsLoop_spec (c :: t)
      (i + ((s.drop i).takeWhile fun c => !isAsciiDigit c).length) 0
    rw [Nat.zero_min] at hloop
    rw [hloop, if_neg (by simp [hrun])]
    rfl

/-- Claim C8: for every body position after a numeric label, the extractor
skips non-digit bytes, consumes the maximal ASCII digit run, and yields its
exact value clamped at the largest representable u64 (saturating, never
wrapping); when no digit follows, the field is absent. -/
theorem c8_digits_saturating :
    ∀ (s : List Nat) (i : Nat), parse_digits_forward s i = digits_spec s i :=
  parse_digits_eq

/-! ### Claim C4: tail-anchored metric extraction -/

lemma nat_max?_eq_some_iff {a : Nat} {xs : List Nat} :
    xs.max? = some a ↔ a ∈ xs ∧ ∀ b ∈ xs, b ≤ a :=
  List.max?_eq_some_iff (fun _ => Nat.le_refl _) (fun a b => by omega) (fun a b c => by omega)

lemma startsWithB_ne_nil {pat l : List Nat} (hp : pat ≠ [])
    (h : startsWithB pat l = true) : l ≠ [] := by
  cases pat with
  | nil => exact absurd rfl hp
  | cons p ps =>
    cases l with
    | nil => cases h
    | cons c cs => simp

lemma rfindGo_spec (pat : List Nat) (hp : pat ≠ []) :
    ∀ hay : List Nat,
      (rfindGo pat hay = none → ∀ j, startsWithB pat (hay.drop j) = false) ∧
      (∀ i, rfindGo pat hay = some i → startsWithB pat (hay.drop i) = true ∧
        ∀ j, i < j → startsWithB pat (hay.drop j) = false) := by
  intro hay
  induction hay with
  | nil =>
    constructor
    · intro _ j
      rw [List.drop_nil]
      cases pat with
      | nil => exact absurd rfl hp
      | cons p ps => rfl
    · intro i hi
      simp [rfindGo] at hi
  | cons c rest ih =>
    obtain ⟨ihn, ihs⟩ := ih
    constructor
    · intro h j
      unfold rfindGo at h
      cases hr : rfindGo pat rest with
      | some k => rw [hr] at h; cases h
      | none =>
        rw [hr] at h
        by_cases hs : startsWithB pat (c :: rest) = true
        · rw [if_pos hs] at h; cases h
        · cases j with
          | zero =>
            rw [List.drop_zero]
            cases hb : startsWithB pat (c :: rest)
            · rfl
            · exact absurd hb hs
          | succ m =>
            rw [List.drop_succ_cons]
            exact ihn hr m
    · intro i hi
      unfold rfindGo at hi
      cases hr : rfindGo pat rest with
      | some k =>
        rw [hr] at hi
        injection hi with hik
        subst hik
        obtain ⟨hsk, hbk⟩ := ihs k hr
        constructor
        · rw [List.drop_succ_cons]
          exact hsk
        · intro j hj
          cases j with
          | zero => omega
          | succ m =>
            rw [List.drop_succ_cons]
            exact hbk m (by omega)
      | none =>
        rw [hr] at hi
        by_cases hs : startsWithB pat (c :: rest) = true
        · rw [if_pos hs] at hi
          injection hi with h0
          subst h0
          constructor
          · rw [List.drop_zero]
            exact hs
          · intro j hj
            cases j with
            | zero => omega
            | succ m =>
              rw [List.drop_succ_cons]
              exact ihn hr m
        · rw [if_neg hs] at hi
          cases hi

lemma rfind_eq_lastOcc (pat : List Nat) (hp : pat ≠ []) (hay : List Nat) :
    rfindGo pat hay = lastOcc pat hay := by
  obtain ⟨hn, hs⟩ := rfindGo_spec pat hp hay
  cases hr : rfindGo pat hay with
  | none =>
    have hng := hn hr
    unfold lastOcc occIdxList
    symm
    rw [List.max?_eq_none_iff, List.filter_eq_nil_iff]
    intro a _
    simp [hng a]
  | some i =>
    obtain ⟨hsi, hub⟩ := hs i hr
    have hlen : i < hay.length := by
      have hne := startsWithB_ne_nil hp hsi
      rw [Ne, List.drop_eq_nil_iff] at hne
      omega
    unfold lastOcc occIdxList
    symm
    rw [nat_max?_eq_some_iff]
    constructor
    · rw [List.mem_filter, List.mem_range]
      exact ⟨hlen, hsi⟩
    · intro b hb
      rw [List.mem_filter, List.mem_range] at hb
      by_contra hbi
      have := hub b (by omega)
      rw [this] at hb
      cases hb.2

lemma rstep_eq_sstep (body pat : List Nat) (hp : pat ≠ []) (se : Nat) :
    rstep body pat se = sstep body pat se := by
  unfold rstep sstep
  rw [rfind_eq_lastOcc pat hp]
  simp only [parse_digits_eq]

lemma metricsOf_eq_spec (body : List Nat) : metricsOf body = metrics_spec body := by
  simp only [metricsOf, metrics_spec, rstep_eq_sstep body eidPat (by decide),
    rstep_eq_sstep body rcPat (by decide), rstep_eq_sstep body etPat (by decide)]

/-- Claim C4: the numeric counters are extracted by searching backward from
the end of the body in the order EXEC_ID, ROWCOUNT, EXECTIME, each search
confined to the part of the body before the previous (more rightward) match
— each label binds to its greatest (nearest preceding) occurrence — and on
the example body the extraction yields executeTimeMs=0, rowCount=1,
executeId=289655185. -/
theorem c4_tail_anchored_metrics :
    (∀ body : List Nat, metricsOf body = metrics_spec body) ∧
      metricsOf c4body = (some 0, some 1, some 289655185) := by
  constructor
  · exact metricsOf_eq_spec
  · decide

/-! ### Claim C9: timestamp layout -/

lemma ts_layout_iff (l : List Nat) : is_ts_millis_bytes l = true ↔ ts_layout_spec l := by
  constructor
  · intro h
    simp only [is_ts_millis_bytes, Bool.and_eq_true, beq_iff_eq, List.all_eq_true,
      List.mem_cons, List.not_mem_nil, or_false] at h
    obtain ⟨⟨hlen, hseps⟩, hall⟩ := h
    obtain ⟨⟨⟨⟨⟨h4, h7⟩, h10⟩, h13⟩, h16⟩, h19⟩ := hseps
    refine ⟨hlen, ?_⟩
    intro i hi
    interval_cases i
    · exact hall 0 (by norm_num)
    · exact hall 1 (by norm_num)
    · exact hall 2 (by norm_num)
    · exact hall 3 (by norm_num)
    · exact h4
    · exact hall 5 (by norm_num)
    · exact hall 6 (by norm_num)
    · exact h7
    · exact hall 8 (by norm_num)
    · exact hall 9 (by norm_num)
    · exact h10
    · exact hall 11 (by norm_num)
    · exact hall 12 (by norm_num)
    · exact h13
    · exact hall 14 (by norm_num)
    · exact hall 15 (by norm_num)
    · exact h16
    · exact hall 17 (by norm_num)
    · exact hall 18 (by norm_num)
    · exact h19
    · exact hall 20 (by norm_num)
    · exact hall 21 (by norm_num)
    · exact hall 22 (by norm_num)
  · rintro ⟨hlen, hall⟩
    simp only [is_ts_millis_bytes, Bool.and_eq_true, beq_iff_eq, List.all_eq_true,
      List.mem_cons, List.not_mem_nil, or_false]
    refine ⟨⟨hlen, ⟨⟨⟨⟨⟨?_, ?_⟩, ?_⟩, ?_⟩, ?_⟩, ?_⟩⟩, ?_⟩
    · exact hall 4 (by omega)
    · exact hall 7 (by omega)
    · exact hall 10 (by omega)
    · exact hall 13 (by omega)
    · exact hall 16 (by omega)
    · exact hall 19 (by omega)
    · intro x hx
      rcases hx with rfl | rfl | rfl | rfl | rfl | rfl | rfl | rfl | rfl | rfl | rfl | rfl |
        rfl | rfl | rfl | rfl | rfl
      · exact hall 0 (by omega)
      · exact hall 1 (by omega)
      · exact hall 2 (by omega)
      · exact hall 3 (by omega)
      · exact hall 5 (by omega)
      · exact hall 6 (by omega)
      · exact hall 8 (by omega)
      · exact hall 9 (by omega)
      · exact hall 11 (by omega)
      · exact hall 12 (by omega)
      · exact hall 14 (by omega)
      · exact hall 15 (by omega)
      · exact hall 17 (by omega)
      · exact hall 18 (by omega)
      · exact hall 20 (by omega)
      · exact hall 21 (by omega)
      · exact hall 22 (by omega)

/-- Claim C9: the timestamp matcher accepts exactly the 23-byte strings with
the fixed separators at indices 4, 7, 10, 13, 16, 19 and ASCII digits
everywhere else; no calendar validity is checked — month 13 is accepted. -/
theorem c9_ts_layout_characterization :
    (∀ l : List Nat, is_ts_millis_bytes l = true ↔ ts_layout_spec l) ∧
      is_ts_millis_bytes month13 = true := by
  constructor
  · exact ts_layout_iff
  · decide

/-! ### Claim C5: the order-sensitive keyword validator -/

lemma IsFirstSuch_unique {P : Nat → Prop} {i j : Nat}
    (hi : IsFirstSuch P i) (hj : IsFirstSuch P j) : i = j := by
  by_contra h
  rcases Nat.lt_or_ge i j with hij | hij
  · exact hj.2 i hij hi.1
  · exact hi.2 j (by omega) hj.1

lemma startsWithB_iff :
    ∀ (pat l : List Nat),
      startsWithB pat l = true ↔ pat = l.take pat.length ∧ pat.length ≤ l.length := by
  intro pat
  induction pat with
  | nil => intro l; simp [startsWithB]
  | cons p ps ih =>
    intro l
    cases l with
    | nil => simp [startsWithB]
    | cons c cs =>
      rw [startsWithB, Bool.and_eq_true, beq_iff_eq, ih cs]
      simp only [List.length_cons, List.take_succ_cons, List.cons.injEq]
      constructor
      · rintro ⟨hpc, heq, hle⟩
        exact ⟨⟨hpc, heq⟩, by omega⟩
      · rintro ⟨⟨hpc, heq⟩, hle⟩
        exact ⟨hpc, heq, by omega⟩

lemma occursAt_iff {pat : List Nat} (hp : pat ≠ []) (hay : List Nat) (i : Nat) :
    OccursAt pat hay i ↔ startsWithB pat (hay.drop i) = true := by
  rw [startsWithB_iff, OccursAt, List.length_drop]
  have hpos : 0 < pat.length := List.length_pos.mpr hp
  constructor
  · rintro ⟨hle, heq⟩
    exact ⟨heq, by omega⟩
  · rintro ⟨heq, hle⟩
    exact ⟨by omega, heq⟩

lemma firstOccurGo_spec (pat : List Nat) (hp : pat ≠ []) :
    ∀ hay : List Nat,
      (firstOccurGo pat hay = none → ∀ j, startsWithB pat (hay.drop j) = false) ∧
      (∀ i, firstOccurGo pat hay = some i → startsWithB pat (hay.drop i) = true ∧
        ∀ j, j < i → startsWithB pat (hay.drop j) = false) := by
  intro hay
  induction hay with
  | nil =>
    constructor
    · intro _ j
      rw [List.drop_nil]
      cases pat with
      | nil => exact absurd rfl hp
      | cons p ps => rfl
    · intro i hi
      simp [firstOccurGo] at hi
  | cons c rest ih =>
    obtain ⟨ihn, ihs⟩ := ih
    constructor
    · intro h j
      unfold firstOccurGo at h
      by_cases hs : startsWithB pat (c :: rest) = true
      · rw [if_pos hs] at h
        cases h
      · rw [if_neg hs] at h
        rw [Option.map_eq_none'] at h
        cases j with
        | zero =>
          rw [List.drop_zero]
          cases hb : startsWithB pat (c :: rest)
          · rfl
          · exact absurd hb hs
        | succ m =>
          rw [List.drop_succ_cons]
          exact ihn h m
    · intro i hi
      unfold firstOccurGo at hi
      by_cases hs : startsWithB pat (c :: rest) = true
      · rw [if_pos hs] at hi
        injection hi with h0
        subst h0
        refine ⟨by rwa [List.drop_zero], ?_⟩
        intro j hj
        omega
      · rw [if_neg hs] at hi
        rw [Option.map_eq_some'] at hi
        obtain ⟨k, hk, hik⟩ := hi
        subst hik
        obtain ⟨hk1, hk2⟩ := ihs k hk
        constructor
        · rw [List.drop_succ_cons]
          exact hk1
        · intro j hj
          cases j with
          | zero =>
            rw [List.drop_zero]
            cases hb : startsWithB pat (c :: rest)
            · rfl
            · exact absurd hb hs
          | succ m =>
            rw [List.drop_succ_cons]
            exact hk2 m (by omega)

lemma firstOccur_iff (pat : List Nat) (hp : pat ≠ []) (meta : List Nat) (i : Nat) :
    firstOccur pat meta = some i ↔ IsFirstSuch (OccursAt pat meta) i := by
  obtain ⟨hn, hs⟩ := firstOccurGo_spec pat hp meta
  constructor
  · intro h
    obtain ⟨h1, h2⟩ := hs i h
    refine ⟨(occursAt_iff hp meta i).mpr h1, ?_⟩
    intro j hj hocc
    rw [occursAt_iff hp meta j] at hocc
    rw [h2 j hj] at hocc
    cases hocc
  · rintro ⟨hPi, hmin⟩
    cases hfo : firstOccur pat meta with
    | none =>
      exfalso
      have hfalse := hn hfo i
      rw [occursAt_iff hp meta i] at hPi
      rw [hfalse] at hPi
      cases hPi
    | some k =>
      obtain ⟨hk1, hk2⟩ := hs k hfo
      congr 1
      by_contra hne
      rcases Nat.lt_or_ge i k with hik | hik
      · have := hk2 i hik
        rw [occursAt_iff hp meta i] at hPi
        rw [this] at hPi
        cases hPi
      · exact hmin k (by omega) ((occursAt_iff hp meta k).mpr hk1)

lemma findByte_eq (t : Nat) : ∀ l : List Nat, findByte l t = firstOccurGo [t] l := by
  intro l
  induction l with
  | nil => rfl
  | cons c rest ih =>
    have hbeq : (c == t) = (t == c) := by
      by_cases h : c = t
      · subst h
        rfl
      · have h2 : ¬ t = c := fun hh => h hh.symm
        simp [h, h2]
    unfold findByte firstOccurGo
    rw [hbeq, ih]
    simp [startsWithB]

lemma findByte_iff (t : Nat) (l : List Nat) (i : Nat) :
    findByte l t = some i ↔ IsFirstSuch (OccursAt [t] l) i := by
  rw [findByte_eq]
  exact firstOccur_iff [t] (by simp) l i

lemma findByte_none (t : Nat) (l : List Nat) (h : findByte l t = none) :
    ∀ j, ¬ OccursAt [t] l j := by
  intro j hocc
  rw [findByte_eq] at h
  obtain ⟨hn, -⟩ := firstOccurGo_spec [t] (by simp) l
  have hfalse := hn h j
  rw [occursAt_iff (by simp) l j] at hocc
  rw [hfalse] at hocc
  cases hocc

lemma markers_core (meta : List Nat) :
    ((if (PATTERNS.map fun pat => firstOccur pat meta).any (fun o => o.isNone) then false
      else incLoop none ((PATTERNS.map fun pat => firstOccur pat meta).map fun o => o.getD 0))
        = true) ↔
    ∃ p1 p2 p3 p4 p5 p6 p7,
      IsFirstSuch (OccursAt epPat meta) p1 ∧
      IsFirstSuch (OccursAt sessPat meta) p2 ∧
      IsFirstSuch (OccursAt thrdPat meta) p3 ∧
      IsFirstSuch (OccursAt userPat meta) p4 ∧
      IsFirstSuch (OccursAt trxidPat meta) p5 ∧
      IsFirstSuch (OccursAt stmtPat meta) p6 ∧
      IsFirstSuch (OccursAt appnamePat meta) p7 ∧
      p1 < p2 ∧ p2 < p3 ∧ p3 < p4 ∧ p4 < p5 ∧ p5 < p6 ∧ p6 < p7 := by
  simp only [PATTERNS, List.map_cons, List.map_nil]
  constructor
  · intro h
    cases h1 : firstOccur epPat meta with
    | none => rw [h1] at h; simp at h
    | some v1 =>
    cases h2 : firstOccur sessPat meta with
    | none => rw [h1, h2] at h; simp at h
    | some v2 =>
    cases h3 : firstOccur thrdPat meta with
    | none => rw [h1, h2, h3] at h; simp at h
    | some v3 =>
    cases h4 : firstOccur userPat meta with
    | none => rw [h1, h2, h3, h4] at h; simp at h
    | some v4 =>
    cases h5 : firstOccur trxidPat meta with
    | none => rw [h1, h2, h3, h4, h5] at h; simp at h
    | some v5 =>
    cases h6 : firstOccur stmtPat meta with
    | none => rw [h1, h2, h3, h4, h5, h6] at h; simp at h
    | some v6 =>
    cases h7 : firstOccur appnamePat meta with
    | none => rw [h1, h2, h3, h4, h5, h6, h7] at h; simp at h
    | some v7 =>
    rw [h1, h2, h3, h4, h5, h6, h7] at h
    simp only [List.any_cons, List.any_nil, Option.isNone_some, Bool.or_self, Bool.or_false,
      Bool.false_eq_true, if_false, List.map_cons, List.map_nil, Option.getD_some] at h
    simp only [incLoop] at h
    split_ifs at h with hc1 hc2 hc3 hc4 hc5 hc6
    exact ⟨v1, v2, v3, v4, v5, v6, v7,
      (firstOccur_iff epPat (by decide) meta v1).mp h1,
      (firstOccur_iff sessPat (by decide) meta v2).mp h2,
      (firstOccur_iff thrdPat (by decide) meta v3).mp h3,
      (firstOccur_iff userPat (by decide) meta v4).mp h4,
      (firstOccur_iff trxidPat (by decide) meta v5).mp h5,
      (firstOccur_iff stmtPat (by decide) meta v6).mp h6,
      (firstOccur_iff appnamePat (by decide) meta v7).mp h7,
      by omega, by omega, by omega, by omega, by omega, by omega⟩
  · rintro ⟨p1, p2, p3, p4, p5, p6, p7, hh1, hh2, hh3, hh4, hh5, hh6, hh7,
      hl1, hl2, hl3, hl4, hl5, hl6⟩
    rw [(firstOccur_iff epPat (by decide) meta p1).mpr hh1,
      (firstOccur_iff sessPat (by decide) meta p2).mpr hh2,
      (firstOccur_iff thrdPat (by decide) meta p3).mpr hh3,
      (firstOccur_iff userPat (by decide) meta p4).mpr hh4,
      (firstOccur_iff trxidPat (by decide) meta p5).mpr hh5,
      (firstOccur_iff stmtPat (by decide) meta p6).mpr hh6,
      (firstOccur_iff appnamePat (by decide) meta p7).mpr hh7]
    simp only [List.any_cons, List.any_nil, Option.isNone_some, Bool.or_self, Bool.or_false,
      Bool.false_eq_true, if_false, List.map_cons, List.map_nil, Option.getD_some]
    simp only [incLoop]
    split_ifs <;> first | rfl | omega

/-- Claim C5: `is_record_start` accepts a line exactly when the line has at
least 23 bytes whose first 23 satisfy the timestamp layout at offset 0 (no
leading whitespace), a parenthesized block follows, all seven markers occur
within that block, and their first-occurrence offsets are strictly
increasing in the order EP[, sess:, thrd:, user:, trxid:, stmt:, appname:. -/
theorem c5_record_start_iff (line : List Nat) :
    is_record_start line = true ↔ record_start_spec line := by
  unfold is_record_start record_start_spec
  by_cases hlen : line.length < 23
  · rw [if_pos hlen]
    constructor
    · intro h
      exact absurd h Bool.false_ne_true
    · rintro ⟨h23, -⟩
      omega
  · rw [if_neg hlen]
    cases hts : is_ts_millis_bytes (line.take 23) with
    | false =>
      rw [show (!false) = true from rfl, if_pos rfl]
      constructor
      · intro h
        exact absurd h Bool.false_ne_true
      · rintro ⟨-, htsp, -⟩
        have := (ts_layout_iff (line.take 23)).mpr htsp
        rw [hts] at this
        cases this
    | true =>
      simp only [Bool.not_true, Bool.false_eq_true, if_false]
      cases hfb : findByte (line.drop 23) 40 with
      | none =>
        constructor
        · intro h
          exact absurd h Bool.false_ne_true
        · rintro ⟨-, -, op, cr, p1, p2, p3, p4, p5, p6, p7, hop, -⟩
          exact absurd hop.1 (findByte_none 40 (line.drop 23) hfb op)
      | some op =>
        dsimp only
        cases hcb : findByte ((line.drop 23).drop op) 41 with
        | none =>
          constructor
          · intro h
            exact absurd h Bool.false_ne_true
          · rintro ⟨-, -, op', cr, p1, p2, p3, p4, p5, p6, p7, hop', hcr, -⟩
            have hop := (findByte_iff 40 (line.drop 23) op).mp hfb
            have heq : op' = op := IsFirstSuch_unique hop' hop
            subst heq
            exact absurd hcr.1 (findByte_none 41 ((line.drop 23).drop op') hcb cr)
        | some p =>
          dsimp only
          rw [markers_core]
          constructor
          · rintro ⟨q1, q2, q3, q4, q5, q6, q7, hm1, hm2, hm3, hm4, hm5, hm6, hm7,
              hl1, hl2, hl3, hl4, hl5, hl6⟩
            exact ⟨by omega, (ts_layout_iff (line.take 23)).mp hts, op, p, q1, q2, q3,
              q4, q5, q6, q7, (findByte_iff 40 (line.drop 23) op).mp hfb,
              (findByte_iff 41 ((line.drop 23).drop op) p).mp hcb,
              hm1, hm2, hm3, hm4, hm5, hm6, hm7, hl1, hl2, hl3, hl4, hl5, hl6⟩
          · rintro ⟨-, -, op', cr', q1, q2, q3, q4, q5, q6, q7, hop', hcr', hm1, hm2,
              hm3, hm4, hm5, hm6, hm7, hl1, hl2, hl3, hl4, hl5, hl6⟩
            have hop := (findByte_iff 40 (line.drop 23) op).mp hfb
            have heqop : op' = op := IsFirstSuch_unique hop' hop
            subst heqop
            have hcr := (findByte_iff 41 ((line.drop 23).drop op') p).mp hcb
            have heqcr : cr' = p := IsFirstSuch_unique hcr' hcr
            subst heqcr
            exact ⟨q1, q2, q3, q4, q5, q6, q7, hm1, hm2, hm3, hm4, hm5, hm6, hm7,
              hl1, hl2, hl3, hl4, hl5, hl6⟩
